import Mathlib

/-!
Verification of the hippostomp sprite-collection decoder.

The definitions below are a shallow embedding of the two source files:
`image.py` (per-image reader: header record, verification, plain / isometric /
sprite decoding) and `bitmap.py` (eager whole-collection reader).  Mutable
Python lists become explicit state passing; `while` loops become
fuel-structured recursions whose fuel is the loop bound (each iteration
strictly increases the loop index, so `bound - index` iterations always
suffice); out-of-range byte reads, which would raise IndexError in Python,
are modeled as reading 0 - no theorem below depends on an out-of-range read.
Errors signalled in the source by an exception or by an error log followed by
an early return become `Except` values.
-/

namespace Hippostomp

/-- An RGBA quad with 8-bit channels, as the tuple the source stores per pixel. -/
abbrev RGBA := Nat × Nat × Nat × Nat

/-- Image.set555Pixel from image.py (identical copy in bitmap.py): expand one
packed 16-bit 555 sample into a 32-bit word 0xAABBGGRR with alpha fixed 0xff.
The `width` argument is taken by the source and never used. -/
def set555Pixel (colour : Nat) (width : Nat) : Nat :=
  let rgba := 0xff000000
  if colour = 0xf81f then rgba
  else
    let rgba := rgba ||| (((colour &&& 0x7c00) >>> 7) ||| ((colour &&& 0x7000) >>> 12))
    let rgba := rgba ||| (((colour &&& 0x3e0) <<< 6) ||| ((colour &&& 0x380) <<< 1))
    let rgba := rgba ||| (((colour &&& 0x1f) <<< 19) ||| ((colour &&& 0x1c) <<< 14))
    rgba

/-- The tuple the source builds from a pixel word:
`(pixel & 255, (pixel & (255 << 8)) >> 8, (pixel & (255 << 16)) >> 16, pixel >> 24)`
(Python precedence: `&` binds looser than `<<` and `>>`). -/
def pixelQuad (pixel : Nat) : RGBA :=
  (pixel &&& 255, (pixel &&& (255 <<< 8)) >>> 8, (pixel &&& (255 <<< 16)) >>> 16, pixel >>> 24)

/-- The image-type enumeration of image.py. -/
inductive ImgType where
  | unknown
  | plain
  | isometric
  | sprite
deriving DecidableEq

/-- get_img_type from image.py: look the numeric code up in the `types` table,
in insertion order plain, isometric, sprite.  The `raise ValueError` in the
source is commented out: an unknown code only logs an error and yields
`ImgType.unknown`. -/
def get_img_type (imgType : Nat) : ImgType :=
  if imgType ∈ [0, 1, 10, 12, 13] then ImgType.plain
  else if imgType ∈ [30] then ImgType.isometric
  else if imgType ∈ [256, 257, 276] then ImgType.sprite
  else ImgType.unknown

/-- The per-image record fields read by Image.read_header (image.py).
`width` and `height` are signed 16-bit fields, `offset555`, `length`,
`uncompressedLength`, `alphaOffset`, `alphaLength` unsigned 32-bit, `flags`
the 4 raw flag bytes. -/
structure ImageRecord where
  bitmapID : Nat
  offset555 : Nat
  length : Nat
  uncompressedLength : Nat
  invertOffset : Int
  width : Int
  height : Int
  xOffset : Nat
  yOffset : Nat
  imgType : ImgType
  flags : List Nat
  alphaOffset : Nat
  alphaLength : Nat

/-- Image.verify from image.py: reject non-positive dimensions or length. -/
def verify (r : ImageRecord) : Bool :=
  if r.width ≤ 0 ∨ r.height ≤ 0 then false
  else if r.length ≤ 0 then false
  else true

/-- The byte slice read_image reads from the companion .555 file:
seek to `offset555 - flags[0]`, read `length + alphaLength` bytes. -/
def slice555 (r : ImageRecord) (file555 : List Nat) : List Nat :=
  (file555.drop (r.offset555 - r.flags.getD 0 0)).take (r.length + r.alphaLength)

/-! ### Plain raster decoding (image.py read_image, ImgType.plain branch)

`for y in range(height): for x in range(width):` writing
`image[(y * width) + x]` and advancing the byte cursor `i` by 2 per pixel. -/

/-- Inner column loop of the plain branch: `n` remaining columns starting at
column `x` of row `y`; the state is the pixel grid and the byte cursor. -/
def plainCols (w : Nat) (buf : List Nat) (y : Nat) :
    Nat → Nat → List RGBA × Nat → List RGBA × Nat
  | _, 0, st => st
  | x, n+1, (image, i) =>
    let pixel := set555Pixel (buf.getD i 0 ||| (buf.getD (i + 1) 0 <<< 8)) w
    plainCols w buf y (x+1) n (image.set (y * w + x) (pixelQuad pixel), i + 2)

/-- Outer row loop of the plain branch: `n` remaining rows starting at row `y`. -/
def plainRows (w : Nat) (buf : List Nat) :
    Nat → Nat → List RGBA × Nat → List RGBA × Nat
  | _, 0, st => st
  | y, n+1, st => plainRows w buf (y+1) n (plainCols w buf y 0 w st)

/-- The full plain decode: rows 0..h-1, byte cursor starting at 0, over an
initial grid (read_image passes the all-transparent w*h grid). -/
def plainDecode (w h : Nat) (buf : List Nat) (image : List RGBA) : List RGBA × Nat :=
  plainRows w buf 0 h (image, 0)

/-! ### Sprite RLE decoding (Image.writeTransparentImage, and the inline copy
in the isometric branch of read_image) -/

/-- The skip wrap `while x >= width: y += 1; x -= width`.  Fuel-structured on
`x`: when `0 < width` every iteration removes at least 1 from `x`, so `x`
iterations suffice.  (With `width = 0` the source loops forever; the model
then merely burns its fuel.) -/
def wrapSkipF (w : Nat) : Nat → Nat → Nat → Nat × Nat
  | 0, x, y => (x, y)
  | fuel+1, x, y => if w ≤ x then wrapSkipF w fuel (x - w) (y + 1) else (x, y)

/-- Skip wrap entry point with fuel `x`. -/
def wrapSkip (w x y : Nat) : Nat × Nat := wrapSkipF w x x y

/-- State of the RLE decoder: the pixel grid, the cursor `(x, y)` and the
byte index `i`. -/
structure RLEState where
  image : List RGBA
  x : Nat
  y : Nat
  i : Nat

/-- One run of `c` data samples: `for j in range(c):` decode 2 bytes, write
at `(y * width) + x`, advance the cursor with row wrap, advance `i` by 2. -/
def rleRun (w : Nat) (buf : List Nat) : Nat → RLEState → RLEState
  | 0, st => st
  | c+1, st =>
    let pixel := set555Pixel (buf.getD st.i 0 ||| (buf.getD (st.i + 1) 0 <<< 8)) w
    let image := st.image.set (st.y * w + st.x) (pixelQuad pixel)
    let x := st.x + 1
    if w ≤ x then rleRun w buf c ⟨image, 0, st.y + 1, st.i + 2⟩
    else rleRun w buf c ⟨image, x, st.y, st.i + 2⟩

/-- The main RLE loop `while i < length:` read a control byte; 255 means skip
the next byte's worth of pixels, otherwise the control byte counts data
samples.  Fuel-structured: `i` grows by at least 1 per iteration. -/
def rleLoopF (w : Nat) (buf : List Nat) (b : Nat) : Nat → RLEState → RLEState
  | 0, st => st
  | fuel+1, st =>
    if st.i < b then
      let c := buf.getD st.i 0
      if c = 255 then
        let s := wrapSkip w (st.x + buf.getD (st.i + 1) 0) st.y
        rleLoopF w buf b fuel ⟨st.image, s.1, s.2, st.i + 2⟩
      else
        rleLoopF w buf b fuel (rleRun w buf c ⟨st.image, st.x, st.y, st.i + 1⟩)
    else st

/-- RLE loop entry point; `b - st.i` iterations always suffice. -/
def rleLoop (w : Nat) (buf : List Nat) (b : Nat) (st : RLEState) : RLEState :=
  rleLoopF w buf b (b - st.i) st

/-- The list of grid positions the RLE loop writes, mirroring rleLoopF: a
skip record writes nothing, a data record of count `c` writes the `c`
successive linear cursor positions. -/
def rleWritesF (w : Nat) (buf : List Nat) (b : Nat) : Nat → Nat → Nat → Nat → List Nat
  | 0, _, _, _ => []
  | fuel+1, x, y, i =>
    if i < b then
      let c := buf.getD i 0
      if c = 255 then
        let s := wrapSkip w (x + buf.getD (i + 1) 0) y
        rleWritesF w buf b fuel s.1 s.2 (i + 2)
      else
        let r := rleRun w buf c ⟨[], x, y, i + 1⟩
        List.range' (y * w + x) c ++ rleWritesF w buf b fuel r.x r.y r.i
    else []

/-- Write positions of the RLE loop from a given start state. -/
def rleWrites (w : Nat) (buf : List Nat) (b : Nat) (x y i : Nat) : List Nat :=
  rleWritesF w buf b (b - i) x y i

/-! ### Isometric mosaic (Image.writeIsometricTile and the isometric branch
of read_image) -/

/-- Class constants of Image (image.py). -/
def isometricTileWidth : Nat := 58
def isometricTileHeight : Nat := 30
def isometricTileBytes : Nat := 1800
def isometricLargeTileWidth : Nat := 78
def isometricLargeTileHeight : Nat := 40
def isometricLargeTileBytes : Nat := 3200

/-- Tile-size resolution and profile selection of the isometric branch:
`size = flags[3]`, derived from the base height when zero (regular 30 first,
then large 40), then the regular / large profile whose
`tileHeight * size == height` matches, as `(size, tileBytes, tileHeight,
tileWidth)`; `none` is the `error("Unknown tile size"); return` path. -/
def isometricTileGeometry (flags3 : Nat) (height : Nat) : Option (Nat × Nat × Nat × Nat) :=
  let size :=
    if flags3 = 0 then
      if height % isometricTileHeight = 0 then height / isometricTileHeight
      else if height % isometricLargeTileHeight = 0 then height / isometricLargeTileHeight
      else 0
    else flags3
  if isometricTileHeight * size = height then
    some (size, isometricTileBytes, isometricTileHeight, isometricTileWidth)
  else if isometricLargeTileHeight * size = height then
    some (size, isometricLargeTileBytes, isometricLargeTileHeight, isometricLargeTileWidth)
  else none

/-- A Python list assignment `image[k] = v` at a possibly negative index:
a negative index counts from the end.  (An index out of range raises
IndexError in the source; the model clamps instead - no claim exercises
that case.) -/
def pySet (l : List RGBA) (k : Int) (v : RGBA) : List RGBA :=
  if 0 ≤ k then l.set k.toNat v
  else l.set (l.length - (-k).toNat) v

/-- Inner column loop of writeIsometricTile: `n` columns starting at column
`x`, writing at `rowBase + x` where `rowBase = ((r + yOffset) * width) +
xOffset`; note the sample here is read high byte first
(`(buffer[i+1] << 8) | buffer[i]`) and the width argument passed to
set555Pixel is the tile-local row `r`. -/
def tileCols (w : Nat) (buf : List Nat) (r : Nat) (rowBase : Int) :
    Nat → Nat → List RGBA × Nat → List RGBA × Nat
  | _, 0, st => st
  | x, n+1, (image, i) =>
    let pixel := set555Pixel ((buf.getD (i + 1) 0 <<< 8) ||| buf.getD i 0) r
    tileCols w buf r rowBase (x+1) n (pySet image (rowBase + (x : Int)) (pixelQuad pixel), i + 2)

/-- First half of the tile rows: `start = tileHeight - 2*(r+1)`,
`end = tileWidth - start`. -/
def tileRowsA (w : Nat) (buf : List Nat) (xOff yOff : Int) (tw th : Nat) :
    Nat → Nat → List RGBA × Nat → List RGBA × Nat
  | _, 0, st => st
  | r, n+1, st =>
    let start := th - 2 * (r + 1)
    let endc := tw - start
    let st2 := tileCols w buf r (((r : Int) + yOff) * (w : Int) + xOff) start (endc - start) st
    tileRowsA w buf xOff yOff tw th (r+1) n st2

/-- Second half of the tile rows: `start = 2*r - tileHeight`. -/
def tileRowsB (w : Nat) (buf : List Nat) (xOff yOff : Int) (tw th : Nat) :
    Nat → Nat → List RGBA × Nat → List RGBA × Nat
  | _, 0, st => st
  | r, n+1, st =>
    let start := 2 * r - th
    let endc := tw - start
    let st2 := tileCols w buf r (((r : Int) + yOff) * (w : Int) + xOff) start (endc - start) st
    tileRowsB w buf xOff yOff tw th (r+1) n st2

/-- Image.writeIsometricTile: the two trapezoid halves of a diamond tile,
consuming samples sequentially from `buf` starting at byte 0. -/
def writeIsometricTile (image : List RGBA) (w : Nat) (buf : List Nat)
    (xOff yOff : Int) (tw th : Nat) : List RGBA :=
  let halfHeight := th / 2
  let s1 := tileRowsA w buf xOff yOff tw th 0 halfHeight (image, 0)
  (tileRowsB w buf xOff yOff tw th halfHeight (th - halfHeight) s1).1

/-- One diagonal row of tiles: `for x in enumerate(range(wd)):` render the
tile from `buffer[i * tileBytes:]`, advance `xOffset` by `tileWidth + 2`,
count the tile. -/
def isoTileRow (w : Nat) (buffer : List Nat) (tw th tb : Nat) (yOff : Int) :
    Nat → Int → List RGBA × Nat → List RGBA × Nat
  | 0, _, st => st
  | n+1, xOff, (image, i) =>
    let image2 := writeIsometricTile image w (buffer.drop (i * tb)) xOff yOff tw th
    isoTileRow w buffer tw th tb yOff n (xOff + (tw : Int) + 2) (image2, i + 1)

/-- The diamond of diagonal rows: `for y in range(size + (size - 1)):` with
the row's x offset and tile count, then `yOffset += tileHeight // 2`. -/
def isoRows (w : Nat) (buffer : List Nat) (size tw th tb : Nat) :
    Nat → Nat → Int → List RGBA × Nat → List RGBA × Nat
  | _, 0, _, st => st
  | y, n+1, yOff, st =>
    let xOff : Int := (if y < size then (size : Int) - y - 1 else (y : Int) - size + 1) * th
    let wd := if y < size then y + 1 else 2 * size - y - 1
    let st2 := isoTileRow w buffer tw th tb yOff wd xOff st
    isoRows w buffer size tw th tb (y+1) n (yOff + ((th / 2 : Nat) : Int)) st2

/-! ### The record orchestrator Image.read_image -/

/-- How read_image fails: an ImageError raised on verification failure, or
an error log followed by an early return in the isometric geometry checks. -/
inductive ReadError where
  | verificationError
  | unknownTileSize
  | footprintMismatch
deriving DecidableEq

/-- The geometry (tile-size or footprint) errors of the spec's error model. -/
def ReadError.isGeometry : ReadError → Bool
  | .verificationError => false
  | .unknownTileSize => true
  | .footprintMismatch => true

/-- Image.read_image: verify, slice the .555 bytes, dispatch on the image
type.  The plain branch fills the grid row-major; the isometric branch
resolves the tile geometry, checks the footprint, renders the base diamond
mosaic, then runs writeTransparentImage on the bytes past uncompressedLength
and afterwards the inline duplicate RLE loop (which starts its absolute byte
index at uncompressedLength while keeping the bound length -
uncompressedLength); the sprite branch runs writeTransparentImage on the
whole slice.  An unknown type matches no branch and the initial
all-transparent grid is stored. -/
def readImage (r : ImageRecord) (file555 : List Nat) : Except ReadError (List RGBA) :=
  if verify r = false then .error .verificationError
  else
    let w := r.width.toNat
    let h := r.height.toNat
    let buffer := slice555 r file555
    let image : List RGBA := List.replicate (w * h) (0, 0, 0, 0)
    if r.imgType = ImgType.plain then
      .ok (plainDecode w h buffer image).1
    else if r.imgType = ImgType.isometric then
      let height := (w + 2) / 2
      match isometricTileGeometry (r.flags.getD 3 0) height with
      | none => .error .unknownTileSize
      | some (size, tileBytes, tileHeight, tileWidth) =>
        if (w + 2) * height ≠ r.uncompressedLength then .error .footprintMismatch
        else
          let base := (isoRows w buffer size tileWidth tileHeight tileBytes 0
            (size + (size - 1)) ((r.height : Int) - (height : Int)) (image, 0)).1
          let s1 := rleLoop w (buffer.drop r.uncompressedLength)
            (r.length - r.uncompressedLength) ⟨base, 0, 0, 0⟩
          let s2 := rleLoop w buffer (r.length - r.uncompressedLength)
            ⟨s1.image, 0, 0, r.uncompressedLength⟩
          .ok s2.image
    else if r.imgType = ImgType.sprite then
      .ok (rleLoop w buffer r.length ⟨image, 0, 0, 0⟩).image
    else
      .ok image

/-- The base diamond mosaic of an isometric record, as a standalone
projection of the isometric branch (the first pass of the two-pass decode). -/
def isoBase (r : ImageRecord) (file555 : List Nat) : List RGBA :=
  let w := r.width.toNat
  let h := r.height.toNat
  let buffer := slice555 r file555
  let image : List RGBA := List.replicate (w * h) (0, 0, 0, 0)
  let height := (w + 2) / 2
  match isometricTileGeometry (r.flags.getD 3 0) height with
  | none => image
  | some (size, tileBytes, tileHeight, tileWidth) =>
    (isoRows w buffer size tileWidth tileHeight tileBytes 0
      (size + (size - 1)) ((r.height : Int) - (height : Int)) (image, 0)).1

/-- A single sprite-RLE decode of the overlay bytes (the slice from index
uncompressedLength up to length) over the base mosaic, anchored at cursor
(0, 0): the second pass as the specification describes it. -/
def isoOverlay (r : ImageRecord) (file555 : List Nat) : List RGBA :=
  (rleLoop r.width.toNat ((slice555 r file555).drop r.uncompressedLength)
    (r.length - r.uncompressedLength) ⟨isoBase r file555, 0, 0, 0⟩).image

/-- The grid positions that single overlay decode writes. -/
def isoOverlayWrites (r : ImageRecord) (file555 : List Nat) : List Nat :=
  rleWrites r.width.toNat ((slice555 r file555).drop r.uncompressedLength)
    (r.length - r.uncompressedLength) 0 0 0

/-! ### The eager collection reader Bitmap.read_images (bitmap.py)

This near-duplicate of the per-image reader builds each image as a flat byte
string by sequential appends rather than by grid assignment.  Its record
index 0 is unconditionally skipped, an unknown type raises ValueError
(aborting the whole loop), and its isometric branch always raises a
TypeError once both geometry checks pass, because `halfHeight = tileHeight /
2` (and, when flags[3] is 0, `size` itself) is a Python float and is passed
to `range`. -/

end Hippostomp

namespace Bitmap

open Hippostomp

/-- The per-record fields Bitmap.read_images parses before deciding whether
to skip the record.  `imgType` stays the raw numeric code: this reader
dispatches on the code directly. -/
structure BitmapRecord where
  offset : Nat
  length : Nat
  uncompressedLength : Nat
  invertOffset : Int
  width : Int
  height : Int
  imgType : Nat
  flags : List Nat
  bitmapID : Nat
  alphaLength : Nat

/-- The ways a record body aborts read_images: the `raise ValueError` of the
unknown-type branch, and the TypeError Python raises in the isometric mosaic
when a float reaches `range`. -/
inductive RunError where
  | valueError
  | typeError
deriving DecidableEq

/-- `pixel.to_bytes(4, "little")`. -/
def pixelBytes (p : Nat) : List Nat :=
  [p &&& 255, (p >>> 8) &&& 255, (p >>> 16) &&& 255, (p >>> 24) &&& 255]

/-- Inner loop of the plain branch of read_images (`for x in range(height)`):
append one decoded pixel's 4 bytes per iteration. -/
def bytesPlainCols (buf : List Nat) (w : Nat) : Nat → List Nat × Nat → List Nat × Nat
  | 0, st => st
  | n+1, (image, i) =>
    let pixel := set555Pixel (buf.getD i 0 ||| (buf.getD (i + 1) 0 <<< 8)) w
    bytesPlainCols buf w n (image ++ pixelBytes pixel, i + 2)

/-- Outer loop of the plain branch (`for y in range(width)`): note the bounds
are swapped relative to image.py, but the byte string is appended
sequentially so the same width*height samples are consumed in order. -/
def bytesPlainRows (buf : List Nat) (w hgt : Nat) : Nat → List Nat × Nat → List Nat × Nat
  | 0, st => st
  | n+1, st => bytesPlainRows buf w hgt n (bytesPlainCols buf w hgt st)

/-- The transparent pixels appended while a skip record is processed:
`for skip in range(n): image += 0x00000000.to_bytes(4, "little")`. -/
def skipPixelBytes : Nat → List Nat
  | 0 => []
  | n+1 => pixelBytes 0 ++ skipPixelBytes n

/-- One data run of the byte-appending sprite branch. -/
def bytesSpriteRun (buf : List Nat) (w : Nat) : Nat → List Nat × Nat × Nat × Nat → List Nat × Nat × Nat × Nat
  | 0, st => st
  | c+1, (image, x, y, i) =>
    let pixel := set555Pixel (buf.getD i 0 ||| (buf.getD (i + 1) 0 <<< 8)) w
    let image := image ++ pixelBytes pixel
    let x := x + 1
    if w ≤ x then bytesSpriteRun buf w c (image, 0, y + 1, i + 2)
    else bytesSpriteRun buf w c (image, x, y, i + 2)

/-- The byte-appending sprite RLE loop of read_images, fuel-structured like
rleLoopF. -/
def bytesSpriteF (buf : List Nat) (w : Nat) (b : Nat) :
    Nat → List Nat × Nat × Nat × Nat → List Nat × Nat × Nat × Nat
  | 0, st => st
  | fuel+1, (image, x, y, i) =>
    if i < b then
      let c := buf.getD i 0
      if c = 255 then
        let n := buf.getD (i + 1) 0
        let s := wrapSkip w (x + n) y
        bytesSpriteF buf w b fuel (image ++ skipPixelBytes n, s.1, s.2, i + 2)
      else
        bytesSpriteF buf w b fuel (bytesSpriteRun buf w c (image, x, y, i + 1))
    else (image, x, y, i)

/-- The isometric branch of read_images: tile-size derivation (Python float
division modeled exactly on the divisible cases via integer division),
profile selection and footprint check, each failure a logged `continue`;
once both checks pass the mosaic body raises TypeError (`range` receives the
float `tileHeight / 2`, or the float `size` itself when flags[3] is 0). -/
def bitmapIsometric (width height : Int) (uncompressedLength : Nat) (flags3 : Nat) :
    Except RunError (Option (List Nat)) :=
  let size : Int :=
    if flags3 = 0 then
      if height % (isometricTileHeight : Int) = 0 then height / (isometricTileHeight : Int)
      else if height % (isometricLargeTileHeight : Int) = 0 then height / (isometricLargeTileHeight : Int)
      else 0
    else (flags3 : Int)
  if (isometricTileHeight : Int) * size = height then
    if (width + 2) * height ≠ (uncompressedLength : Int) then .ok none
    else .error .typeError
  else if (isometricLargeTileHeight : Int) * size = height then
    if (width + 2) * height ≠ (uncompressedLength : Int) then .ok none
    else .error .typeError
  else .ok none

/-- The body of one read_images iteration for a non-skipped record: `.ok
none` is a `continue`, `.ok (some bytes)` appends one image, `.error`
aborts the loop with an exception.  The PIL Image.frombuffer wrapper is
modeled as the identity on the byte payload. -/
def recordBody (pixelFile : List Nat) (r : BitmapRecord) : Except RunError (Option (List Nat)) :=
  let dataLength := r.length + r.alphaLength
  if dataLength ≤ 0 then .ok none
  else
    let buffer := (pixelFile.drop (r.offset - r.flags.getD 0 0)).take dataLength
    if r.imgType ∈ [0, 1, 10, 12, 13] then
      .ok (some (bytesPlainRows buffer r.width.toNat r.height.toNat r.width.toNat ([], 0)).1)
    else if r.imgType = 30 then
      bitmapIsometric r.width r.height r.uncompressedLength (r.flags.getD 3 0)
    else if r.imgType ∈ [256, 257, 276] then
      .ok (some (bytesSpriteF buffer r.width.toNat r.length r.length ([], 0, 0, 0)).1)
    else .error .valueError

/-- Bitmap.read_images over the parsed records, carrying the running record
index: `if record == 0: continue` skips the first record of the collection
unconditionally; an exception from a body ends the loop with the images
appended so far. -/
def read_images (pixelFile : List Nat) : Nat → List BitmapRecord → List (List Nat)
  | _, [] => []
  | idx, r :: rest =>
    if idx = 0 then read_images pixelFile (idx + 1) rest
    else
      match recordBody pixelFile r with
      | .error _ => []
      | .ok none => read_images pixelFile (idx + 1) rest
      | .ok (some img) => img :: read_images pixelFile (idx + 1) rest

end Bitmap

namespace Hippostomp

/-! ### Concrete records used by the claim witnesses -/

/-- A record whose image-type code 2 is in no table entry: width 1, height 1,
length 2. -/
def unknownTypeRecord : ImageRecord :=
  { bitmapID := 0, offset555 := 0, length := 2, uncompressedLength := 0,
    invertOffset := 0, width := 1, height := 1, xOffset := 0, yOffset := 0,
    imgType := get_img_type 2, flags := [0, 0, 0, 0], alphaOffset := 0, alphaLength := 0 }

/-- An isometric record whose uncompressedLength 5 does not match the
footprint (58 + 2) * 30 = 1800. -/
def badFootprintRecord : ImageRecord :=
  { bitmapID := 0, offset555 := 0, length := 10, uncompressedLength := 5,
    invertOffset := 0, width := 58, height := 30, xOffset := 0, yOffset := 0,
    imgType := ImgType.isometric, flags := [0, 0, 0, 0], alphaOffset := 0, alphaLength := 0 }

/-- A record with length 0, rejected by verification. -/
def zeroLengthRecord : ImageRecord :=
  { bitmapID := 0, offset555 := 0, length := 0, uncompressedLength := 0,
    invertOffset := 0, width := 4, height := 4, xOffset := 0, yOffset := 0,
    imgType := ImgType.plain, flags := [0, 0, 0, 0], alphaOffset := 0, alphaLength := 0 }

/-- A well-formed one-tile isometric record: width 58 gives base height 30,
regular profile with size 1, uncompressedLength 1800, one overlay byte. -/
def oneTileIsoRecord : ImageRecord :=
  { bitmapID := 0, offset555 := 0, length := 1801, uncompressedLength := 1800,
    invertOffset := 0, width := 58, height := 30, xOffset := 0, yOffset := 0,
    imgType := ImgType.isometric, flags := [0, 0, 0, 0], alphaOffset := 0, alphaLength := 0 }

/-! ### List helper lemmas -/

theorem getD_set_self {α : Type} (l : List α) (n : Nat) (v d : α) (h : n < l.length) :
    (l.set n v).getD n d = v := by
  simp [List.getD_eq_getElem?_getD, List.getElem?_set_self h]

theorem getD_set_other {α : Type} (l : List α) (m n : Nat) (v d : α) (h : n ≠ m) :
    (l.set n v).getD m d = l.getD m d := by
  simp [List.getD_eq_getElem?_getD, List.getElem?_set_ne h]

theorem set_getD_id {α : Type} (l : List α) (n : Nat) (v d : α) (h1 : n < l.length)
    (h2 : l.getD n d = v) : l.set n v = l := by
  apply List.ext_getElem?
  intro m
  rcases eq_or_ne n m with hm | hm
  · subst hm
    rw [List.getElem?_set_self h1]
    rw [List.getD_eq_getElem?_getD] at h2
    rcases hx : l[n]? with _ | a
    · exact absurd hx (by rw [List.getElem?_eq_none_iff]; omega)
    · rw [hx] at h2
      simp only [Option.getD_some] at h2
      rw [h2]
  · rw [List.getElem?_set_ne hm]

theorem getD_replicate_self {α : Type} :
    ∀ (n k : Nat) (a : α), (List.replicate n a).getD k a = a
  | 0, _, _ => rfl
  | _+1, 0, _ => rfl
  | n+1, k+1, a => getD_replicate_self n k a

theorem getD_drop_add {α : Type} :
    ∀ (l : List α) (d k : Nat) (z : α), (l.drop d).getD k z = l.getD (d + k) z
  | _, 0, _, _ => by simp
  | [], _+1, _, _ => by simp
  | a :: t, d+1, k, z => by
    show (t.drop d).getD k z = (a :: t).getD (d + 1 + k) z
    rw [getD_drop_add t d k z, Nat.add_right_comm d 1 k]
    rfl

/-! ### Pixel decoder claims -/

/-- C9: the single sample 0xF81F always decodes to opaque black (0,0,0,255),
returned before the channel-expansion shifts run. -/
theorem c9_key_color_opaque_black :
    ∀ width : Nat, set555Pixel 0xf81f width = 0xff000000 ∧
      pixelQuad (set555Pixel 0xf81f width) = (0, 0, 0, 255) := by
  intro width
  unfold set555Pixel pixelQuad
  exact ⟨by decide, by decide⟩

/-- C2 counterexample: the decoder maps sample 0x7FFF to (255,255,255,255),
not to the claimed (248,248,248,255) - replicating the top 3 bits of a full
5-bit channel into the low bits yields 0xFF, not 0xF8. -/
theorem c2_counterexample : pixelQuad (set555Pixel 0x7fff 0) ≠ (248, 248, 248, 255) := by
  decide

/-- C2 amended: the pixel decoder maps sample 0x0000 to (0,0,0,255) and maps
sample 0x7FFF to (255,255,255,255). -/
theorem c2_extreme_samples :
    ∀ width : Nat, pixelQuad (set555Pixel 0x0000 width) = (0, 0, 0, 255) ∧
      pixelQuad (set555Pixel 0x7fff width) = (255, 255, 255, 255) := by
  intro width
  unfold set555Pixel pixelQuad
  exact ⟨by decide, by decide⟩

/-! ### Tile-size resolution claim -/

/-- C5: with flags[3] = 0 and base height (width+2)/2 = 120, both 30 and 40
divide evenly, and the derivation picks the regular profile (58x30, 1800
bytes) with tile count 4, taking precedence over the large profile with
tile count 3. -/
theorem c5_regular_precedence (width : Nat) (h : (width + 2) / 2 = 120) :
    isometricTileGeometry 0 ((width + 2) / 2) =
      some (4, isometricTileBytes, isometricTileHeight, isometricTileWidth) := by
  rw [h]; rfl

/-- C5 witness: width 238 has base height 120. -/
theorem c5_witness :
    isometricTileGeometry 0 ((238 + 2) / 2) =
      some (4, isometricTileBytes, isometricTileHeight, isometricTileWidth) :=
  c5_regular_precedence 238 rfl

/-! ### Orchestrator error-path claims -/

/-- C8: a record with non-positive width, height or length is rejected by
verification with the verification error before any decode: the result is
the same for every pixel file, so no byte of the raw-pixel file is read and
no decoder runs. -/
theorem c8_verification_rejects (r : ImageRecord) (file555 : List Nat)
    (h : r.width ≤ 0 ∨ r.height ≤ 0 ∨ r.length ≤ 0) :
    readImage r file555 = .error .verificationError := by
  have hv : verify r = false := by
    unfold verify
    rcases h with h | h | h
    · rw [if_pos (Or.inl h)]
    · rw [if_pos (Or.inr h)]
    · rcases Decidable.em (r.width ≤ 0 ∨ r.height ≤ 0) with h2 | h2
      · rw [if_pos h2]
      · rw [if_neg h2, if_pos h]
  unfold readImage
  rw [hv]
  rfl

/-- C8 witness: the zero-length record is rejected no matter the pixel file. -/
theorem c8_witness :
    readImage zeroLengthRecord [7, 7, 7] = .error .verificationError :=
  c8_verification_rejects zeroLengthRecord [7, 7, 7] (Or.inr (Or.inr (by decide)))

/-- C6: an isometric record passing verification whose uncompressedLength
differs from (width+2)*baseHeight, baseHeight = (width+2)/2 by integer
division, ends in a geometry error (tile-size or footprint) and yields no
image. -/
theorem c6_footprint_mismatch_geometry_error (r : ImageRecord) (file555 : List Nat)
    (ht : r.imgType = ImgType.isometric)
    (hw : 0 < r.width) (hh : 0 < r.height) (hl : 0 < r.length)
    (hm : (r.width.toNat + 2) * ((r.width.toNat + 2) / 2) ≠ r.uncompressedLength) :
    ∃ e, readImage r file555 = .error e ∧ e.isGeometry = true := by
  have hv : verify r = true := by
    unfold verify
    rw [if_neg (by omega), if_neg (by omega)]
  unfold readImage
  rw [hv]
  simp only [Bool.true_eq_false, if_false, if_true, ht]
  cases hg : isometricTileGeometry (r.flags.getD 3 0) ((r.width.toNat + 2) / 2) with
  | none => exact ⟨.unknownTileSize, rfl, rfl⟩
  | some prof =>
    obtain ⟨size, tileBytes, tileHeight, tileWidth⟩ := prof
    dsimp only
    rw [if_pos hm]
    exact ⟨.footprintMismatch, rfl, rfl⟩

/-- C6 witness: the bad-footprint record (uncompressedLength 5 against
footprint 1800) produces a geometry error. -/
theorem c6_witness :
    ∃ e, readImage badFootprintRecord [] = .error e ∧ e.isGeometry = true :=
  c6_footprint_mismatch_geometry_error badFootprintRecord []
    rfl (by decide) (by decide) (by decide) (by decide)

/-- C1 (code bug): a record whose image-type code 2 is in no table entry is
mapped to ImgType.unknown (the raise in get_img_type is commented out), and
read_image then completes without any error, storing the fabricated
all-transparent 1x1 image - the spec instead demands a hard
UnknownTypeError. -/
theorem c1_unknown_type_fabricates_blank :
    get_img_type 2 = ImgType.unknown ∧
      readImage unknownTypeRecord [0, 0] = .ok (List.replicate 1 (0, 0, 0, 0)) :=
  ⟨rfl, rfl⟩

/-! ### Plain raster characterization (C3) -/

theorem plainCols_snd (w : Nat) (buf : List Nat) (y : Nat) :
    ∀ (n x : Nat) (st : List RGBA × Nat),
      (plainCols w buf y x n st).2 = st.2 + 2 * n := by
  intro n
  induction n with
  | zero => intro x st; simp only [plainCols]; omega
  | succ n ih =>
    intro x st
    obtain ⟨image, i⟩ := st
    simp only [plainCols]
    rw [ih (x+1)]
    dsimp only
    omega

theorem plainCols_length (w : Nat) (buf : List Nat) (y : Nat) :
    ∀ (n x : Nat) (st : List RGBA × Nat),
      (plainCols w buf y x n st).1.length = st.1.length := by
  intro n
  induction n with
  | zero => intro x st; simp only [plainCols]
  | succ n ih =>
    intro x st
    obtain ⟨image, i⟩ := st
    simp only [plainCols]
    rw [ih (x+1)]
    dsimp only
    rw [List.length_set]

theorem plainCols_frame (w : Nat) (buf : List Nat) (y : Nat) (z : RGBA) :
    ∀ (n x : Nat) (st : List RGBA × Nat) (p : Nat),
      p < y * w + x ∨ y * w + x + n ≤ p →
      (plainCols w buf y x n st).1.getD p z = st.1.getD p z := by
  intro n
  induction n with
  | zero => intro x st p _; simp only [plainCols]
  | succ n ih =>
    intro x st p hp
    obtain ⟨image, i⟩ := st
    simp only [plainCols]
    rw [ih (x+1) _ p (by omega)]
    dsimp only
    exact getD_set_other image p (y * w + x) _ z (by omega)

theorem plainCols_cell (w : Nat) (buf : List Nat) (y : Nat) (z : RGBA) :
    ∀ (n x : Nat) (st : List RGBA × Nat) (j : Nat), j < n →
      y * w + x + n ≤ st.1.length →
      (plainCols w buf y x n st).1.getD (y * w + x + j) z =
        pixelQuad (set555Pixel (buf.getD (st.2 + 2 * j) 0 |||
          (buf.getD (st.2 + 2 * j + 1) 0 <<< 8)) w) := by
  intro n
  induction n with
  | zero => intro x st j hj _; exact absurd hj (by omega)
  | succ n ih =>
    intro x st j hj hlen
    obtain ⟨image, i⟩ := st
    dsimp only at hlen
    simp only [plainCols]
    cases j with
    | zero =>
      rw [plainCols_frame w buf y z n (x+1) _ (y * w + x + 0) (by omega)]
      dsimp only
      simp only [Nat.add_zero, Nat.mul_zero]
      exact getD_set_self image (y * w + x) _ z (by omega)
    | succ j =>
      have h1 : y * w + x + (j + 1) = y * w + (x + 1) + j := by omega
      rw [h1]
      rw [ih (x+1) _ j (by omega) (by dsimp only; rw [List.length_set]; omega)]
      dsimp only
      have e1 : i + 2 + 2 * j = i + 2 * (j + 1) := by omega
      rw [e1]

theorem plainRows_snd (w : Nat) (buf : List Nat) :
    ∀ (n y : Nat) (st : List RGBA × Nat),
      (plainRows w buf y n st).2 = st.2 + 2 * (n * w) := by
  intro n
  induction n with
  | zero => intro y st; simp only [plainRows]; omega
  | succ n ih =>
    intro y st
    simp only [plainRows]
    rw [ih (y+1), plainCols_snd]
    ring

theorem plainRows_length (w : Nat) (buf : List Nat) :
    ∀ (n y : Nat) (st : List RGBA × Nat),
      (plainRows w buf y n st).1.length = st.1.length := by
  intro n
  induction n with
  | zero => intro y st; simp only [plainRows]
  | succ n ih =>
    intro y st
    simp only [plainRows]
    rw [ih (y+1), plainCols_length]

theorem plainRows_frame (w : Nat) (buf : List Nat) (z : RGBA) :
    ∀ (n y : Nat) (st : List RGBA × Nat) (p : Nat),
      p < y * w →
      (plainRows w buf y n st).1.getD p z = st.1.getD p z := by
  intro n
  induction n with
  | zero => intro y st p _; simp only [plainRows]
  | succ n ih =>
    intro y st p hp
    simp only [plainRows]
    rw [ih (y+1) _ p (Nat.lt_of_lt_of_le hp (Nat.mul_le_mul (Nat.le_succ y) (Nat.le_refl w)))]
    exact plainCols_frame w buf y z w 0 st p (Or.inl (by simpa using hp))

theorem plainRows_cell (w : Nat) (buf : List Nat) (z : RGBA) :
    ∀ (n y : Nat) (st : List RGBA × Nat) (rr c : Nat), rr < n → c < w →
      (y + n) * w ≤ st.1.length →
      (plainRows w buf y n st).1.getD ((y + rr) * w + c) z =
        pixelQuad (set555Pixel (buf.getD (st.2 + 2 * (rr * w + c)) 0 |||
          (buf.getD (st.2 + 2 * (rr * w + c) + 1) 0 <<< 8)) w) := by
  intro n
  induction n with
  | zero => intro y st rr c hr _ _; exact absurd hr (by omega)
  | succ n ih =>
    intro y st rr c hr hc hlen
    simp only [plainRows]
    cases rr with
    | zero =>
      have hpos : (y + 0) * w + c < (y + 1) * w := by
        rw [Nat.add_zero, Nat.succ_mul]
        exact Nat.add_lt_add_left hc _
      rw [plainRows_frame w buf z n (y+1) _ ((y + 0) * w + c) hpos]
      have hlen2 : y * w + 0 + w ≤ st.1.length := by
        refine Nat.le_trans ?_ hlen
        rw [Nat.add_zero]
        calc y * w + w = (y + 1) * w := (Nat.succ_mul y w).symm
          _ ≤ (y + (n + 1)) * w := Nat.mul_le_mul (by omega) (Nat.le_refl w)
      have := plainCols_cell w buf y z w 0 st c hc hlen2
      rw [Nat.add_zero] at this
      rw [Nat.add_zero, this]
      simp only [Nat.zero_mul, Nat.zero_add]
    | succ rr =>
      have h1 : y + (rr + 1) = (y + 1) + rr := by omega
      rw [h1]
      have hlen2 : ((y + 1) + n) * w ≤ (plainCols w buf y 0 w st).1.length := by
        rw [plainCols_length]
        refine Nat.le_trans (Nat.mul_le_mul (by omega) (Nat.le_refl w)) hlen
      rw [ih (y+1) _ rr c (by omega) hc hlen2]
      rw [plainCols_snd]
      have e1 : st.2 + 2 * w + 2 * (rr * w + c) = st.2 + 2 * ((rr + 1) * w + c) := by ring
      rw [e1]

/-- C3: a plain record with positive width and height and a byte slice of at
least width*height*2 bytes is decoded by consuming exactly width*height
little-endian 16-bit samples sequentially from the start of the slice (the
final byte cursor is 2*(width*height)), row-major, and the grid cell at
(row, col) is the pixel decode of the sample at index row*width + col. -/
theorem c3_plain_row_major (w h : Nat) (buf : List Nat)
    (hw : 0 < w) (hh : 0 < h) (hbuf : w * h * 2 ≤ buf.length) :
    (∀ row col, row < h → col < w →
      (plainDecode w h buf (List.replicate (w * h) (0, 0, 0, 0))).1.getD (row * w + col) (0, 0, 0, 0) =
        pixelQuad (set555Pixel (buf.getD (2 * (row * w + col)) 0 |||
          (buf.getD (2 * (row * w + col) + 1) 0 <<< 8)) w)) ∧
    (plainDecode w h buf (List.replicate (w * h) (0, 0, 0, 0))).2 = 2 * (w * h) := by
  constructor
  · intro row col hr hc
    unfold plainDecode
    have hlen : (0 + h) * w ≤ (List.replicate (w * h) ((0, 0, 0, 0) : RGBA), 0).1.length := by
      dsimp only
      rw [List.length_replicate, Nat.zero_add, Nat.mul_comm]
    have := plainRows_cell w buf (0, 0, 0, 0) h 0 (List.replicate (w * h) (0, 0, 0, 0), 0)
      row col hr hc hlen
    rw [Nat.zero_add] at this
    rw [this]
    dsimp only
    rw [Nat.zero_add, Nat.mul_comm 2 (row * w + col)]
  · unfold plainDecode
    rw [plainRows_snd]
    dsimp only
    rw [Nat.zero_add, Nat.mul_comm h w]

/-- C3 witness: the 2x1 raster from bytes [0x00,0x00, 0xFF,0x7F]; cell
(0, 1) decodes the second little-endian sample and the final byte cursor
is 4. -/
theorem c3_witness :
    (plainDecode 2 1 [0, 0, 255, 127] (List.replicate (2 * 1) (0, 0, 0, 0))).1.getD (0 * 2 + 1) (0, 0, 0, 0) =
      pixelQuad (set555Pixel (([0, 0, 255, 127] : List Nat).getD (2 * (0 * 2 + 1)) 0 |||
        (([0, 0, 255, 127] : List Nat).getD (2 * (0 * 2 + 1) + 1) 0 <<< 8)) 2) ∧
    (plainDecode 2 1 [0, 0, 255, 127] (List.replicate (2 * 1) (0, 0, 0, 0))).2 = 2 * (2 * 1) :=
  ⟨(c3_plain_row_major 2 1 [0, 0, 255, 127] (by decide) (by decide) (by decide)).1 0 1
      (by decide) (by decide),
   (c3_plain_row_major 2 1 [0, 0, 255, 127] (by decide) (by decide) (by decide)).2⟩

/-! ### Sprite RLE decoder lemmas (C4, C7) -/

theorem wrapSkipF_spec (w : Nat) (hw : 0 < w) :
    ∀ (fuel x y : Nat), x ≤ fuel →
      (wrapSkipF w fuel x y).1 < w ∧
      (wrapSkipF w fuel x y).2 * w + (wrapSkipF w fuel x y).1 = y * w + x := by
  intro fuel
  induction fuel with
  | zero =>
    intro x y hx
    have hx0 : x = 0 := by omega
    subst hx0
    simp only [wrapSkipF]
    exact ⟨hw, trivial⟩
  | succ fuel ih =>
    intro x y hx
    simp only [wrapSkipF]
    by_cases hcond : w ≤ x
    · rw [if_pos hcond]
      have h2 := ih (x - w) (y + 1) (by omega)
      refine ⟨h2.1, ?_⟩
      rw [h2.2, Nat.succ_mul]
      omega
    · rw [if_neg hcond]
      exact ⟨by omega, by dsimp only⟩

theorem wrapSkip_spec (w x y : Nat) (hw : 0 < w) :
    (wrapSkip w x y).1 < w ∧
    (wrapSkip w x y).2 * w + (wrapSkip w x y).1 = y * w + x := by
  unfold wrapSkip
  exact wrapSkipF_spec w hw x x y (Nat.le_refl x)

theorem wrapSkip_stop (w x y : Nat) (h : ¬ w ≤ x) : wrapSkip w x y = (x, y) := by
  unfold wrapSkip
  cases x with
  | zero => rfl
  | succ n =>
    simp only [wrapSkipF]
    rw [if_neg h]

theorem rleRun_i (w : Nat) (buf : List Nat) :
    ∀ (c : Nat) (st : RLEState), (rleRun w buf c st).i = st.i + 2 * c := by
  intro c
  induction c with
  | zero => intro st; simp only [rleRun]; omega
  | succ c ih =>
    intro st
    simp only [rleRun]
    by_cases hc : w ≤ st.x + 1
    · rw [if_pos hc, ih]; dsimp only; omega
    · rw [if_neg hc, ih]; dsimp only; omega

theorem rleRun_length (w : Nat) (buf : List Nat) :
    ∀ (c : Nat) (st : RLEState), (rleRun w buf c st).image.length = st.image.length := by
  intro c
  induction c with
  | zero => intro st; simp only [rleRun]
  | succ c ih =>
    intro c_1
    simp only [rleRun]
    by_cases hc : w ≤ c_1.x + 1
    · rw [if_pos hc, ih]; dsimp only; rw [List.length_set]
    · rw [if_neg hc, ih]; dsimp only; rw [List.length_set]

theorem rleRun_coords (w : Nat) (buf : List Nat) :
    ∀ (c : Nat) (st : RLEState), st.x < w →
      (rleRun w buf c st).x < w ∧
      (rleRun w buf c st).y * w + (rleRun w buf c st).x = st.y * w + st.x + c := by
  intro c
  induction c with
  | zero => intro st hx; simp only [rleRun]; exact ⟨hx, by omega⟩
  | succ c ih =>
    intro st hx
    simp only [rleRun]
    by_cases hc : w ≤ st.x + 1
    · rw [if_pos hc]
      refine ⟨(ih _ (by dsimp only; omega)).1, ?_⟩
      rw [(ih _ (by dsimp only; omega)).2]
      dsimp only
      rw [Nat.succ_mul]
      omega
    · rw [if_neg hc]
      refine ⟨(ih _ (by dsimp only; omega)).1, ?_⟩
      rw [(ih _ (by dsimp only; omega)).2]
      dsimp only
      omega

theorem rleRun_frame (w : Nat) (buf : List Nat) (z : RGBA) :
    ∀ (c : Nat) (st : RLEState) (p : Nat), st.x < w →
      (p < st.y * w + st.x ∨ st.y * w + st.x + c ≤ p) →
      (rleRun w buf c st).image.getD p z = st.image.getD p z := by
  intro c
  induction c with
  | zero => intro st p _ _; simp only [rleRun]
  | succ c ih =>
    intro st p hx hp
    simp only [rleRun]
    by_cases hc : w ≤ st.x + 1
    · rw [if_pos hc]
      rw [ih _ p (by dsimp only; omega)
        (by dsimp only; rw [Nat.succ_mul]; omega)]
      dsimp only
      exact getD_set_other st.image p (st.y * w + st.x) _ z (by omega)
    · rw [if_neg hc]
      rw [ih _ p (by dsimp only; omega) (by dsimp only; omega)]
      dsimp only
      exact getD_set_other st.image p (st.y * w + st.x) _ z (by omega)

theorem rleRun_image_indep (w : Nat) (buf : List Nat) :
    ∀ (c : Nat) (im1 im2 : List RGBA) (x y i : Nat),
      (rleRun w buf c ⟨im1, x, y, i⟩).x = (rleRun w buf c ⟨im2, x, y, i⟩).x ∧
      (rleRun w buf c ⟨im1, x, y, i⟩).y = (rleRun w buf c ⟨im2, x, y, i⟩).y ∧
      (rleRun w buf c ⟨im1, x, y, i⟩).i = (rleRun w buf c ⟨im2, x, y, i⟩).i := by
  intro c
  induction c with
  | zero => intro im1 im2 x y i; simp [rleRun]
  | succ c ih =>
    intro im1 im2 x y i
    simp only [rleRun]
    by_cases hc : w ≤ x + 1
    · rw [if_pos hc, if_pos hc]
      exact ih _ _ 0 (y + 1) (i + 2)
    · rw [if_neg hc, if_neg hc]
      exact ih _ _ (x + 1) y (i + 2)

theorem rleRun_zero (w : Nat) (buf : List Nat) (st : RLEState) :
    rleRun w buf 0 st = st := rfl

theorem rleRun_step (w : Nat) (buf : List Nat) (c : Nat) (st : RLEState)
    (hnw : ¬ w ≤ st.x + 1) :
    rleRun w buf (c + 1) st = rleRun w buf c
      ⟨st.image.set (st.y * w + st.x)
        (pixelQuad (set555Pixel (buf.getD st.i 0 ||| (buf.getD (st.i + 1) 0 <<< 8)) w)),
       st.x + 1, st.y, st.i + 2⟩ := by
  simp only [rleRun]
  rw [if_neg hnw]

theorem rleLoopF_stop (w : Nat) (buf : List Nat) (b fuel : Nat) (st : RLEState)
    (h : ¬ st.i < b) : rleLoopF w buf b fuel st = st := by
  cases fuel with
  | zero => rfl
  | succ fuel =>
    simp only [rleLoopF]
    rw [if_neg h]

theorem rleLoopF_step_skip (w : Nat) (buf : List Nat) (b fuel : Nat) (st : RLEState)
    (h1 : st.i < b) (h2 : buf.getD st.i 0 = 255) :
    rleLoopF w buf b (fuel + 1) st = rleLoopF w buf b fuel
      ⟨st.image, (wrapSkip w (st.x + buf.getD (st.i + 1) 0) st.y).1,
       (wrapSkip w (st.x + buf.getD (st.i + 1) 0) st.y).2, st.i + 2⟩ := by
  simp only [rleLoopF]
  rw [if_pos h1, if_pos h2]

theorem rleLoopF_step_run (w : Nat) (buf : List Nat) (b fuel : Nat) (st : RLEState)
    (h1 : st.i < b) (h2 : buf.getD st.i 0 ≠ 255) :
    rleLoopF w buf b (fuel + 1) st = rleLoopF w buf b fuel
      (rleRun w buf (buf.getD st.i 0) ⟨st.image, st.x, st.y, st.i + 1⟩) := by
  simp only [rleLoopF]
  rw [if_pos h1, if_neg h2]

theorem rleLoopF_length (w : Nat) (buf : List Nat) (b : Nat) :
    ∀ (fuel : Nat) (st : RLEState),
      (rleLoopF w buf b fuel st).image.length = st.image.length := by
  intro fuel
  induction fuel with
  | zero => intro st; rfl
  | succ fuel ih =>
    intro st
    by_cases h1 : st.i < b
    · by_cases h2 : buf.getD st.i 0 = 255
      · rw [rleLoopF_step_skip w buf b fuel st h1 h2, ih]
      · rw [rleLoopF_step_run w buf b fuel st h1 h2, ih, rleRun_length]
    · rw [rleLoopF_stop w buf b _ st h1]

theorem rleLoopF_frame_below (w : Nat) (buf : List Nat) (b : Nat) (z : RGBA) :
    ∀ (fuel : Nat) (st : RLEState) (p : Nat), st.x < w →
      p < st.y * w + st.x →
      (rleLoopF w buf b fuel st).image.getD p z = st.image.getD p z := by
  intro fuel
  induction fuel with
  | zero => intro st p _ _; rfl
  | succ fuel ih =>
    intro st p hx hp
    by_cases h1 : st.i < b
    · by_cases h2 : buf.getD st.i 0 = 255
      · rw [rleLoopF_step_skip w buf b fuel st h1 h2]
        have hws := wrapSkip_spec w (st.x + buf.getD (st.i + 1) 0) st.y (by omega)
        rw [ih _ p (by dsimp only; exact hws.1) (by dsimp only; omega)]
      · rw [rleLoopF_step_run w buf b fuel st h1 h2]
        have hco := rleRun_coords w buf (buf.getD st.i 0)
          ⟨st.image, st.x, st.y, st.i + 1⟩ (by dsimp only; exact hx)
        dsimp only at hco
        rw [ih _ p hco.1 (by omega)]
        exact rleRun_frame w buf z _ _ p (by dsimp only; exact hx)
          (Or.inl (by dsimp only; omega))
    · rw [rleLoopF_stop w buf b _ st h1]

theorem rleLoopF_writes_frame (w : Nat) (buf : List Nat) (b : Nat) (z : RGBA) :
    ∀ (fuel : Nat) (st : RLEState) (p : Nat), st.x < w →
      p ∉ rleWritesF w buf b fuel st.x st.y st.i →
      (rleLoopF w buf b fuel st).image.getD p z = st.image.getD p z := by
  intro fuel
  induction fuel with
  | zero => intro st p _ _; rfl
  | succ fuel ih =>
    intro st p hx hmem
    by_cases h1 : st.i < b
    · by_cases h2 : buf.getD st.i 0 = 255
      · rw [rleLoopF_step_skip w buf b fuel st h1 h2]
        simp only [rleWritesF] at hmem
        rw [if_pos h1, if_pos h2] at hmem
        have hws := wrapSkip_spec w (st.x + buf.getD (st.i + 1) 0) st.y (by omega)
        exact ih _ p (by dsimp only; exact hws.1) (by dsimp only; exact hmem)
      · rw [rleLoopF_step_run w buf b fuel st h1 h2]
        simp only [rleWritesF] at hmem
        rw [if_pos h1, if_neg h2] at hmem
        rw [List.mem_append] at hmem
        push_neg at hmem
        have hind := rleRun_image_indep w buf (buf.getD st.i 0) st.image
          ([] : List RGBA) st.x st.y (st.i + 1)
        have hco := rleRun_coords w buf (buf.getD st.i 0)
          ⟨st.image, st.x, st.y, st.i + 1⟩ (by dsimp only; exact hx)
        dsimp only at hco
        have hm1 := hmem.1
        rw [List.mem_range'_1] at hm1
        have hm2 : p ∉ rleWritesF w buf b fuel
            (rleRun w buf (buf.getD st.i 0) ⟨st.image, st.x, st.y, st.i + 1⟩).x
            (rleRun w buf (buf.getD st.i 0) ⟨st.image, st.x, st.y, st.i + 1⟩).y
            (rleRun w buf (buf.getD st.i 0) ⟨st.image, st.x, st.y, st.i + 1⟩).i := by
          rw [hind.1, hind.2.1, hind.2.2]
          exact hmem.2
        rw [ih _ p hco.1 hm2]
        exact rleRun_frame w buf z _ _ p (by dsimp only; exact hx)
          (by dsimp only; omega)
    · rw [rleLoopF_stop w buf b _ st h1]

theorem rleRun_replay (w : Nat) (buf : List Nat) (z : RGBA) :
    ∀ (c : Nat) (imgO A : List RGBA) (x y i : Nat), x < w →
      A.length = imgO.length →
      (∀ p, y * w + x ≤ p → p < y * w + x + c →
        A.getD p z = (rleRun w buf c ⟨imgO, x, y, i⟩).image.getD p z) →
      rleRun w buf c ⟨A, x, y, i⟩ =
        ⟨A, (rleRun w buf c ⟨imgO, x, y, i⟩).x,
            (rleRun w buf c ⟨imgO, x, y, i⟩).y,
            (rleRun w buf c ⟨imgO, x, y, i⟩).i⟩ := by
  intro c
  induction c with
  | zero =>
    intro imgO A x y i hx hlen hagree
    simp only [rleRun]
  | succ c ih =>
    intro imgO A x y i hx hlen hagree
    have hAset : A.set (y * w + x)
        (pixelQuad (set555Pixel (buf.getD i 0 ||| (buf.getD (i + 1) 0 <<< 8)) w)) = A := by
      by_cases hin : y * w + x < A.length
      · apply set_getD_id A (y * w + x) _ z hin
        rw [hagree (y * w + x) (Nat.le_refl _) (by omega)]
        simp only [rleRun]
        by_cases hc : w ≤ x + 1
        · rw [if_pos hc]
          rw [rleRun_frame w buf z c _ (y * w + x) (by dsimp only; omega)
            (Or.inl (by dsimp only; rw [Nat.succ_mul]; omega))]
          dsimp only
          exact getD_set_self imgO (y * w + x) _ z (by omega)
        · rw [if_neg hc]
          rw [rleRun_frame w buf z c _ (y * w + x) (by dsimp only; omega)
            (Or.inl (by dsimp only; omega))]
          dsimp only
          exact getD_set_self imgO (y * w + x) _ z (by omega)
      · exact List.set_eq_of_length_le (by omega)
    simp only [rleRun]
    by_cases hc : w ≤ x + 1
    · rw [if_pos hc, if_pos hc]
      rw [hAset]
      refine ih _ A 0 (y + 1) (i + 2) (by omega) (by rw [List.length_set]; exact hlen) ?_
      intro p hp1 hp2
      rw [hagree p (by rw [Nat.succ_mul] at hp1; omega)
        (by rw [Nat.succ_mul] at hp2; omega)]
      simp only [rleRun]
      rw [if_pos hc]
    · rw [if_neg hc, if_neg hc]
      rw [hAset]
      refine ih _ A (x + 1) y (i + 2) (by omega) (by rw [List.length_set]; exact hlen) ?_
      intro p hp1 hp2
      rw [hagree p (by omega) (by omega)]
      simp only [rleRun]
      rw [if_neg hc]

theorem rleLoopF_replay (w : Nat) (buf : List Nat) (b1 b2 : Nat) (z : RGBA) (hb : b2 ≤ b1)
    (hw : 0 < w) :
    ∀ (fuel2 x y i : Nat) (imgO : List RGBA) (fuel1 : Nat),
      b1 - i ≤ fuel1 → x < w →
      (rleLoopF w buf b2 fuel2
        ⟨(rleLoopF w buf b1 fuel1 ⟨imgO, x, y, i⟩).image, x, y, i⟩).image =
      (rleLoopF w buf b1 fuel1 ⟨imgO, x, y, i⟩).image := by
  intro fuel2
  induction fuel2 with
  | zero => intro x y i imgO fuel1 _ _; rfl
  | succ fuel2 ih =>
    intro x y i imgO fuel1 hfuel hx
    by_cases h1 : i < b2
    · have h1' : i < b1 := Nat.lt_of_lt_of_le h1 hb
      obtain ⟨fuel1p, rfl⟩ : ∃ k, fuel1 = k + 1 := ⟨fuel1 - 1, by omega⟩
      by_cases h2 : buf.getD i 0 = 255
      · rw [rleLoopF_step_skip w buf b1 fuel1p ⟨imgO, x, y, i⟩
          (by dsimp only; exact h1') (by dsimp only; exact h2)]
        rw [rleLoopF_step_skip w buf b2 fuel2 _
          (by dsimp only; exact h1) (by dsimp only; exact h2)]
        dsimp only
        exact ih _ _ (i + 2) imgO fuel1p (by omega)
          (wrapSkip_spec w (x + buf.getD (i + 1) 0) y hw).1
      · rw [rleLoopF_step_run w buf b1 fuel1p ⟨imgO, x, y, i⟩
          (by dsimp only; exact h1') (by dsimp only; exact h2)]
        rw [rleLoopF_step_run w buf b2 fuel2 _
          (by dsimp only; exact h1) (by dsimp only; exact h2)]
        dsimp only
        have hco := rleRun_coords w buf (buf.getD i 0) ⟨imgO, x, y, i + 1⟩
          (by dsimp only; exact hx)
        dsimp only at hco
        have hri := rleRun_i w buf (buf.getD i 0) ⟨imgO, x, y, i + 1⟩
        dsimp only at hri
        have hlenA : (rleLoopF w buf b1 fuel1p
            (rleRun w buf (buf.getD i 0) ⟨imgO, x, y, i + 1⟩)).image.length = imgO.length := by
          rw [rleLoopF_length, rleRun_length]
        have hagreeA : ∀ p, y * w + x ≤ p → p < y * w + x + buf.getD i 0 →
            (rleLoopF w buf b1 fuel1p
              (rleRun w buf (buf.getD i 0) ⟨imgO, x, y, i + 1⟩)).image.getD p z =
            (rleRun w buf (buf.getD i 0) ⟨imgO, x, y, i + 1⟩).image.getD p z := by
          intro p hp1 hp2
          exact rleLoopF_frame_below w buf b1 z fuel1p _ p hco.1 (by omega)
        have hrep := rleRun_replay w buf z (buf.getD i 0) imgO
          ((rleLoopF w buf b1 fuel1p
            (rleRun w buf (buf.getD i 0) ⟨imgO, x, y, i + 1⟩)).image)
          x y (i + 1) hx hlenA hagreeA
        rw [hrep]
        exact ih (rleRun w buf (buf.getD i 0) ⟨imgO, x, y, i + 1⟩).x
          (rleRun w buf (buf.getD i 0) ⟨imgO, x, y, i + 1⟩).y
          (rleRun w buf (buf.getD i 0) ⟨imgO, x, y, i + 1⟩).i
          (rleRun w buf (buf.getD i 0) ⟨imgO, x, y, i + 1⟩).image fuel1p
          (by omega) hco.1
    · rw [rleLoopF_stop w buf b2 _ _ (by dsimp only; exact h1)]

theorem rleRun_shift (w : Nat) (buf : List Nat) (d : Nat) :
    ∀ (c : Nat) (img : List RGBA) (x y j : Nat),
      rleRun w buf c ⟨img, x, y, d + j⟩ =
        ⟨(rleRun w (buf.drop d) c ⟨img, x, y, j⟩).image,
         (rleRun w (buf.drop d) c ⟨img, x, y, j⟩).x,
         (rleRun w (buf.drop d) c ⟨img, x, y, j⟩).y,
         d + (rleRun w (buf.drop d) c ⟨img, x, y, j⟩).i⟩ := by
  intro c
  induction c with
  | zero => intro img x y j; simp only [rleRun]
  | succ c ih =>
    intro img x y j
    simp only [rleRun]
    rw [show d + j + 1 = d + (j + 1) from rfl]
    rw [← getD_drop_add buf d j 0, ← getD_drop_add buf d (j + 1) 0]
    by_cases hc : w ≤ x + 1
    · rw [if_pos hc, if_pos hc]
      rw [show d + j + 2 = d + (j + 2) from rfl]
      exact ih _ 0 (y + 1) (j + 2)
    · rw [if_neg hc, if_neg hc]
      rw [show d + j + 2 = d + (j + 2) from rfl]
      exact ih _ (x + 1) y (j + 2)

theorem rleLoopF_shift (w : Nat) (buf : List Nat) (d b : Nat) :
    ∀ (fuel : Nat) (img : List RGBA) (x y j : Nat),
      rleLoopF w buf b fuel ⟨img, x, y, d + j⟩ =
        ⟨(rleLoopF w (buf.drop d) (b - d) fuel ⟨img, x, y, j⟩).image,
         (rleLoopF w (buf.drop d) (b - d) fuel ⟨img, x, y, j⟩).x,
         (rleLoopF w (buf.drop d) (b - d) fuel ⟨img, x, y, j⟩).y,
         d + (rleLoopF w (buf.drop d) (b - d) fuel ⟨img, x, y, j⟩).i⟩ := by
  intro fuel
  induction fuel with
  | zero => intro img x y j; simp only [rleLoopF]
  | succ fuel ih =>
    intro img x y j
    by_cases h1 : d + j < b
    · have h1' : j < b - d := by omega
      have hbyte : buf.getD (d + j) 0 = (buf.drop d).getD j 0 := (getD_drop_add buf d j 0).symm
      by_cases h2 : buf.getD (d + j) 0 = 255
      · rw [rleLoopF_step_skip w buf b fuel _ (by dsimp only; exact h1)
          (by dsimp only; exact h2)]
        rw [rleLoopF_step_skip w (buf.drop d) (b - d) fuel _ (by dsimp only; exact h1')
          (by dsimp only; rw [← hbyte]; exact h2)]
        dsimp only
        rw [show d + j + 1 = d + (j + 1) from rfl, ← getD_drop_add buf d (j + 1) 0]
        rw [show d + j + 2 = d + (j + 2) from rfl]
        exact ih img _ _ (j + 2)
      · rw [rleLoopF_step_run w buf b fuel _ (by dsimp only; exact h1)
          (by dsimp only; exact h2)]
        rw [rleLoopF_step_run w (buf.drop d) (b - d) fuel _ (by dsimp only; exact h1')
          (by dsimp only; rw [← hbyte]; exact h2)]
        dsimp only
        rw [show d + j + 1 = d + (j + 1) from rfl]
        rw [hbyte]
        rw [rleRun_shift w buf d ((buf.drop d).getD j 0) img x y (j + 1)]
        exact ih (rleRun w (buf.drop d) ((buf.drop d).getD j 0) ⟨img, x, y, j + 1⟩).image
          (rleRun w (buf.drop d) ((buf.drop d).getD j 0) ⟨img, x, y, j + 1⟩).x
          (rleRun w (buf.drop d) ((buf.drop d).getD j 0) ⟨img, x, y, j + 1⟩).y
          (rleRun w (buf.drop d) ((buf.drop d).getD j 0) ⟨img, x, y, j + 1⟩).i
    · rw [rleLoopF_stop w buf b _ _ (by dsimp only; exact h1)]
      rw [rleLoopF_stop w (buf.drop d) (b - d) _ _ (by dsimp only; omega)]

/-- C4: for an isometric record that passes the geometry checks, read_image
returns the base mosaic overlaid by exactly one sprite-RLE decode of the
bytes from uncompressedLength up to length, anchored at cursor (0, 0) - the
inline duplicate RLE loop in the source re-reads a prefix of the same
overlay stream from the same anchor and rewrites only values already
present, so it changes nothing - and every grid position the overlay stream
does not write keeps exactly the base-mosaic value. -/
theorem c4_overlay_decoded_once (r : ImageRecord) (f5 : List Nat)
    (size tileBytes tileHeight tileWidth : Nat)
    (ht : r.imgType = ImgType.isometric)
    (hw : 0 < r.width) (hh : 0 < r.height) (hl : 0 < r.length)
    (hg : isometricTileGeometry (r.flags.getD 3 0) ((r.width.toNat + 2) / 2) =
      some (size, tileBytes, tileHeight, tileWidth))
    (hfoot : (r.width.toNat + 2) * ((r.width.toNat + 2) / 2) = r.uncompressedLength) :
    readImage r f5 = .ok (isoOverlay r f5) ∧
    ∀ p, p ∉ isoOverlayWrites r f5 →
      (isoOverlay r f5).getD p (0, 0, 0, 0) = (isoBase r f5).getD p (0, 0, 0, 0) := by
  have hv : verify r = true := by
    unfold verify
    rw [if_neg (by omega), if_neg (by omega)]
  have hwnat : 0 < r.width.toNat := by omega
  have hbase : isoBase r f5 =
      (isoRows r.width.toNat (slice555 r f5) size tileWidth tileHeight tileBytes 0
        (size + (size - 1)) ((r.height : Int) - (((r.width.toNat + 2) / 2 : Nat) : Int))
        (List.replicate (r.width.toNat * r.height.toNat) (0, 0, 0, 0), 0)).1 := by
    simp only [isoBase]
    rw [hg]
  constructor
  · unfold readImage
    rw [hv]
    simp only [Bool.true_eq_false, if_false, if_true, ht]
    rw [if_neg (show ¬ (ImgType.isometric = ImgType.plain) by decide)]
    rw [hg]
    dsimp only
    rw [if_neg (show ¬ ((r.width.toNat + 2) * ((r.width.toNat + 2) / 2) ≠ r.uncompressedLength)
      from fun hcon => hcon hfoot)]
    unfold isoOverlay
    rw [hbase]
    unfold rleLoop
    dsimp only
    rw [Nat.sub_zero]
    congr 1
    have hshift := rleLoopF_shift r.width.toNat (slice555 r f5) r.uncompressedLength
      (r.length - r.uncompressedLength)
      ((r.length - r.uncompressedLength) - r.uncompressedLength)
      (rleLoopF r.width.toNat ((slice555 r f5).drop r.uncompressedLength)
        (r.length - r.uncompressedLength) (r.length - r.uncompressedLength)
        ⟨(isoRows r.width.toNat (slice555 r f5) size tileWidth tileHeight tileBytes 0
            (size + (size - 1)) ((r.height : Int) - (((r.width.toNat + 2) / 2 : Nat) : Int))
            (List.replicate (r.width.toNat * r.height.toNat) (0, 0, 0, 0), 0)).1,
          0, 0, 0⟩).image 0 0 0
    simp only [Nat.add_zero] at hshift
    rw [hshift]
    dsimp only
    exact rleLoopF_replay r.width.toNat ((slice555 r f5).drop r.uncompressedLength)
      (r.length - r.uncompressedLength)
      ((r.length - r.uncompressedLength) - r.uncompressedLength) (0, 0, 0, 0)
      (Nat.sub_le _ _) hwnat
      ((r.length - r.uncompressedLength) - r.uncompressedLength) 0 0 0
      (isoRows r.width.toNat (slice555 r f5) size tileWidth tileHeight tileBytes 0
        (size + (size - 1)) ((r.height : Int) - (((r.width.toNat + 2) / 2 : Nat) : Int))
        (List.replicate (r.width.toNat * r.height.toNat) (0, 0, 0, 0), 0)).1
      (r.length - r.uncompressedLength) (by omega) hwnat
  · intro p hp
    unfold isoOverlayWrites rleWrites at hp
    unfold isoOverlay rleLoop
    dsimp only at hp ⊢
    rw [Nat.sub_zero] at hp ⊢
    exact rleLoopF_writes_frame r.width.toNat ((slice555 r f5).drop r.uncompressedLength)
      (r.length - r.uncompressedLength) (0, 0, 0, 0) (r.length - r.uncompressedLength)
      ⟨isoBase r f5, 0, 0, 0⟩ p (by dsimp only; exact hwnat) (by dsimp only; exact hp)

/-- C4 witness: a concrete single-tile isometric record (width 58, base
height 30, regular profile, uncompressedLength 1800, one overlay byte) over
an all-zero pixel file. -/
theorem c4_witness :
    readImage oneTileIsoRecord (List.replicate 1801 0) =
      .ok (isoOverlay oneTileIsoRecord (List.replicate 1801 0)) ∧
    ∀ p, p ∉ isoOverlayWrites oneTileIsoRecord (List.replicate 1801 0) →
      (isoOverlay oneTileIsoRecord (List.replicate 1801 0)).getD p (0, 0, 0, 0) =
        (isoBase oneTileIsoRecord (List.replicate 1801 0)).getD p (0, 0, 0, 0) :=
  c4_overlay_decoded_once oneTileIsoRecord (List.replicate 1801 0) 1 1800 30 58
    rfl (by decide) (by decide) (by decide) (by decide) (by decide)

/-! ### The concrete sprite RLE stream of C7 -/

/-- C7 counterexample: against the claimed bound width ≥ 5, at width exactly
5 the trailing skip of 2 drives the cursor from column 3 to 5 = width and
the row wrap fires, leaving the cursor on row 1 - so a row wrap does occur. -/
theorem c7_counterexample :
    (rleLoop 5 [3, 0, 0, 0, 0, 0, 0, 255, 2] 9
      ⟨List.replicate 10 ((0, 0, 0, 0) : RGBA), 0, 0, 0⟩).y ≠ 0 := by decide

/-- C7 amended: for width ≥ 6 (not ≥ 5: at width 5 the skip wraps the cursor
onto row 1), the stream [3, s0..s5, 255, 2] writes exactly the three decoded
samples at positions 0, 1, 2, leaves every other position of the initially
transparent grid fully transparent (positions 3 and 4 in particular), and
finishes with the cursor at column 5 of row 0, no row wrap having
occurred. -/
theorem c7_rle_stream_no_wrap (w h s0 s1 s2 s3 s4 s5 : Nat) (hw : 6 ≤ w) (hh : 1 ≤ h) :
    ((rleLoop w [3, s0, s1, s2, s3, s4, s5, 255, 2] 9
        ⟨List.replicate (w * h) (0, 0, 0, 0), 0, 0, 0⟩).image.getD 0 (0, 0, 0, 0) =
          pixelQuad (set555Pixel (s0 ||| (s1 <<< 8)) w) ∧
      (rleLoop w [3, s0, s1, s2, s3, s4, s5, 255, 2] 9
        ⟨List.replicate (w * h) (0, 0, 0, 0), 0, 0, 0⟩).image.getD 1 (0, 0, 0, 0) =
          pixelQuad (set555Pixel (s2 ||| (s3 <<< 8)) w) ∧
      (rleLoop w [3, s0, s1, s2, s3, s4, s5, 255, 2] 9
        ⟨List.replicate (w * h) (0, 0, 0, 0), 0, 0, 0⟩).image.getD 2 (0, 0, 0, 0) =
          pixelQuad (set555Pixel (s4 ||| (s5 <<< 8)) w)) ∧
    (∀ k, k ≠ 0 → k ≠ 1 → k ≠ 2 →
      (rleLoop w [3, s0, s1, s2, s3, s4, s5, 255, 2] 9
        ⟨List.replicate (w * h) (0, 0, 0, 0), 0, 0, 0⟩).image.getD k (0, 0, 0, 0) =
          (0, 0, 0, 0)) ∧
    (rleLoop w [3, s0, s1, s2, s3, s4, s5, 255, 2] 9
      ⟨List.replicate (w * h) (0, 0, 0, 0), 0, 0, 0⟩).x = 5 ∧
    (rleLoop w [3, s0, s1, s2, s3, s4, s5, 255, 2] 9
      ⟨List.replicate (w * h) (0, 0, 0, 0), 0, 0, 0⟩).y = 0 := by
  have h1 : ¬ (w ≤ 1) := by omega
  have h2 : ¬ (w ≤ 2) := by omega
  have h3 : ¬ (w ≤ 3) := by omega
  have h5 : ¬ (w ≤ 5) := by omega
  have hwh : 6 ≤ w * h := Nat.le_trans hw (Nat.le_mul_of_pos_right w hh)
  have hkey : rleLoop w [3, s0, s1, s2, s3, s4, s5, 255, 2] 9
      ⟨List.replicate (w * h) (0, 0, 0, 0), 0, 0, 0⟩ =
    ⟨(((List.replicate (w * h) ((0, 0, 0, 0) : RGBA)).set 0
        (pixelQuad (set555Pixel (s0 ||| (s1 <<< 8)) w))).set 1
        (pixelQuad (set555Pixel (s2 ||| (s3 <<< 8)) w))).set 2
        (pixelQuad (set555Pixel (s4 ||| (s5 <<< 8)) w)), 5, 0, 9⟩ := by
    simp [rleLoop, rleLoopF, rleRun, wrapSkip, wrapSkipF, h1, h2, h3, h5]
  rw [hkey]
  dsimp only
  refine ⟨⟨?_, ?_, ?_⟩, ?_, rfl, rfl⟩
  · rw [getD_set_other _ _ _ _ _ (by omega), getD_set_other _ _ _ _ _ (by omega)]
    exact getD_set_self _ _ _ _ (by simp only [List.length_replicate]; omega)
  · rw [getD_set_other _ _ _ _ _ (by omega)]
    exact getD_set_self _ _ _ _ (by simp only [List.length_set, List.length_replicate]; omega)
  · exact getD_set_self _ _ _ _
      (by simp only [List.length_set, List.length_replicate]; omega)
  · intro k hk0 hk1 hk2
    rw [getD_set_other _ _ _ _ _ (fun e => hk2 e.symm),
      getD_set_other _ _ _ _ _ (fun e => hk1 e.symm),
      getD_set_other _ _ _ _ _ (fun e => hk0 e.symm)]
    exact getD_replicate_self (w * h) k (0, 0, 0, 0)

/-- C7 witness: the amended statement at width 6, height 1 and all-zero
samples. -/
theorem c7_witness :
    ((rleLoop 6 [3, 0, 0, 0, 0, 0, 0, 255, 2] 9
        ⟨List.replicate (6 * 1) (0, 0, 0, 0), 0, 0, 0⟩).image.getD 0 (0, 0, 0, 0) =
          pixelQuad (set555Pixel (0 ||| (0 <<< 8)) 6) ∧
      (rleLoop 6 [3, 0, 0, 0, 0, 0, 0, 255, 2] 9
        ⟨List.replicate (6 * 1) (0, 0, 0, 0), 0, 0, 0⟩).image.getD 1 (0, 0, 0, 0) =
          pixelQuad (set555Pixel (0 ||| (0 <<< 8)) 6) ∧
      (rleLoop 6 [3, 0, 0, 0, 0, 0, 0, 255, 2] 9
        ⟨List.replicate (6 * 1) (0, 0, 0, 0), 0, 0, 0⟩).image.getD 2 (0, 0, 0, 0) =
          pixelQuad (set555Pixel (0 ||| (0 <<< 8)) 6)) ∧
    (∀ k, k ≠ 0 → k ≠ 1 → k ≠ 2 →
      (rleLoop 6 [3, 0, 0, 0, 0, 0, 0, 255, 2] 9
        ⟨List.replicate (6 * 1) (0, 0, 0, 0), 0, 0, 0⟩).image.getD k (0, 0, 0, 0) =
          (0, 0, 0, 0)) ∧
    (rleLoop 6 [3, 0, 0, 0, 0, 0, 0, 255, 2] 9
      ⟨List.replicate (6 * 1) (0, 0, 0, 0), 0, 0, 0⟩).x = 5 ∧
    (rleLoop 6 [3, 0, 0, 0, 0, 0, 0, 255, 2] 9
      ⟨List.replicate (6 * 1) (0, 0, 0, 0), 0, 0, 0⟩).y = 0 :=
  c7_rle_stream_no_wrap 6 1 0 0 0 0 0 0 (by decide) (by decide)

end Hippostomp

namespace Bitmap

theorem read_images_length_le (pixelFile : List Nat) :
    ∀ (recs : List BitmapRecord) (idx : Nat),
      (read_images pixelFile idx recs).length ≤ recs.length := by
  intro recs
  induction recs with
  | nil => intro idx; simp [read_images]
  | cons r rest ih =>
    intro idx
    simp only [read_images]
    by_cases h0 : idx = 0
    · rw [if_pos h0]
      exact Nat.le_trans (ih (idx + 1)) (by simp)
    · rw [if_neg h0]
      cases recordBody pixelFile r with
      | error e => simp
      | ok o =>
        cases o with
        | none => exact Nat.le_trans (ih (idx + 1)) (by simp)
        | some img =>
          simp only [List.length_cons]
          exact Nat.succ_le_succ (ih (idx + 1))

/-- C10: the eager reader read_images unconditionally skips the record at
index 0: no decoder runs on it and no image is appended for it, whatever its
contents - replacing record 0 by any other record leaves the result
unchanged - so at most numImages - 1 images are produced per collection. -/
theorem c10_first_record_skipped (pixelFile : List Nat) (r r2 : BitmapRecord)
    (rest : List BitmapRecord) :
    read_images pixelFile 0 (r :: rest) = read_images pixelFile 0 (r2 :: rest) ∧
    (read_images pixelFile 0 (r :: rest)).length ≤ (r :: rest).length - 1 := by
  constructor
  · simp only [read_images, if_true, Nat.zero_add]
  · have he : read_images pixelFile 0 (r :: rest) = read_images pixelFile 1 rest := by
      simp only [read_images, if_true, Nat.zero_add]
    rw [he]
    simpa using read_images_length_le pixelFile rest 1

end Bitmap
